import Mathlib

/-!
Shallow embedding of the KPI dashboard data pipeline (`src/dashboard.py`):
date parsing (`parse_numeric_yyyymmdd`), work-duration range splitting
(`parse_work_duration_column`), percentage normalization and row
normalization (`clean_and_prepare`), and the monthly aggregation and
leaderboard steps, together with theorems settling the specification claims.
-/

namespace KPI

/-! ### Characters and strings -/

/-- Whitespace characters recognized by Python's `str.strip()` and `\s`. -/
def isPySpace (c : Char) : Bool :=
  c == ' ' || c == '\t' || c == '\n' || c == '\r' || c == '\x0b' || c == '\x0c'

def isDigitChar (c : Char) : Bool := 48 ≤ c.toNat && c.toNat ≤ 57

def charVal (c : Char) : Nat := c.toNat - 48

/-- Python `str.strip()` on a character list. -/
def stripChars (cs : List Char) : List Char :=
  ((cs.dropWhile isPySpace).reverse.dropWhile isPySpace).reverse

def stripStr (s : String) : String := String.mk (stripChars s.data)

/-! ### Calendar dates -/

structure Date where
  y : Nat
  m : Nat
  d : Nat
deriving DecidableEq, Repr

/-- Numeric encoding `YYYYMMDD`; on dates with `m, d < 100` this ordering
agrees with the chronological order of the corresponding timestamps. -/
def Date.code (a : Date) : Nat := a.y * 10000 + a.m * 100 + a.d

def isLeap (y : Nat) : Bool := (y % 4 == 0 && y % 100 != 0) || y % 400 == 0

def daysInMonth (y m : Nat) : Nat :=
  if m == 2 then (if isLeap y then 29 else 28)
  else if m == 4 || m == 6 || m == 9 || m == 11 then 30
  else 31

def validYmd (y m d : Nat) : Bool :=
  decide (1 ≤ m) && decide (m ≤ 12) && decide (1 ≤ d) && decide (d ≤ daysInMonth y m)

/-- pandas `Timestamp` values are nanosecond-bounded: midnight timestamps
exist exactly for dates from 1677-09-22 to 2262-04-11; out-of-range dates
raise (with an explicit format) or coerce to `NaT`. -/
def inTsRange (dt : Date) : Bool :=
  decide (16770922 ≤ dt.code) && decide (dt.code ≤ 22620411)

def ymdOk (dt : Date) : Bool := validYmd dt.y dt.m dt.d && inTsRange dt

/-!
### `strptime`-style format matching

`pd.to_datetime(s, format=f)` uses a strptime-style matcher: `%Y` is exactly
four digits, `%m` matches `1[0-2]|0[1-9]|[1-9]` and `%d` matches
`3[01]|[12]\d|0[1-9]|[1-9]`; the whole string must be consumed, and the
single regex match found (alternatives in order, with backtracking) is then
validated as a real calendar date.
-/

/-- `%m` match candidates at the head of `cs`, in regex alternation order. -/
def monthCands : List Char → List (Nat × List Char)
  | a :: b :: rest =>
    (if a == '1' && (b == '0' || b == '1' || b == '2') then [(10 + charVal b, rest)] else []) ++
    (if a == '0' && isDigitChar b && b != '0' then [(charVal b, rest)] else []) ++
    (if isDigitChar a && a != '0' then [(charVal a, b :: rest)] else [])
  | [a] => if isDigitChar a && a != '0' then [(charVal a, [])] else []
  | [] => []

/-- `%d` match candidates at the head of `cs`, in regex alternation order. -/
def dayCands : List Char → List (Nat × List Char)
  | a :: b :: rest =>
    (if a == '3' && (b == '0' || b == '1') then [(30 + charVal b, rest)] else []) ++
    (if (a == '1' || a == '2') && isDigitChar b then [(10 * charVal a + charVal b, rest)] else []) ++
    (if a == '0' && isDigitChar b && b != '0' then [(charVal b, rest)] else []) ++
    (if isDigitChar a && a != '0' then [(charVal a, b :: rest)] else [])
  | [a] => if isDigitChar a && a != '0' then [(charVal a, [])] else []
  | [] => []

/-- First fully-consuming month/day split of the tail of a `%Y%m%d` match,
in regex backtracking order; `strptime` validates only that single split. -/
def mdSplit (cs : List Char) : Option (Nat × Nat) :=
  (monthCands cs).findSome? fun mc =>
    (dayCands mc.2).findSome? fun dc =>
      if dc.2 = ([] : List Char) then some (mc.1, dc.1) else none

/-- Format `%Y%m%d`. -/
def fmtCompact (s : String) : Option Date :=
  match s.data with
  | a :: b :: c :: d :: rest =>
    if isDigitChar a && isDigitChar b && isDigitChar c && isDigitChar d then
      (mdSplit rest).bind fun md =>
        let dt : Date :=
          ⟨((charVal a * 10 + charVal b) * 10 + charVal c) * 10 + charVal d, md.1, md.2⟩
        if ymdOk dt then some dt else none
    else none
  | _ => none

/-- A delimiter-bounded token fully matching `%m`. -/
def monthTok (cs : List Char) : Option Nat :=
  (monthCands cs).findSome? fun mc => if mc.2 = ([] : List Char) then some mc.1 else none

/-- A delimiter-bounded token fully matching `%d`. -/
def dayTok (cs : List Char) : Option Nat :=
  (dayCands cs).findSome? fun dc => if dc.2 = ([] : List Char) then some dc.1 else none

/-- A delimiter-bounded token fully matching `%Y` (exactly four digits). -/
def yearTok (cs : List Char) : Option Nat :=
  match cs with
  | [a, b, c, d] =>
    if isDigitChar a && isDigitChar b && isDigitChar c && isDigitChar d then
      some (((charVal a * 10 + charVal b) * 10 + charVal c) * 10 + charVal d)
    else none
  | _ => none

def splitSepAux (sep : Char) : List Char → List Char → List (List Char)
  | [], acc => [acc.reverse]
  | c :: rest, acc =>
    if c == sep then acc.reverse :: splitSepAux sep rest []
    else splitSepAux sep rest (c :: acc)

/-- Format `%Y<sep>%m<sep>%d`: three separator-bounded tokens. -/
def fmtYmdSep (sep : Char) (s : String) : Option Date :=
  match splitSepAux sep s.data [] with
  | [ys, ms, ds] =>
    (yearTok ys).bind fun y => (monthTok ms).bind fun m => (dayTok ds).bind fun d =>
      let dt : Date := ⟨y, m, d⟩
      if ymdOk dt then some dt else none
  | _ => none

/-- Format `%d<sep>%m<sep>%Y`. -/
def fmtDmySep (sep : Char) (s : String) : Option Date :=
  match splitSepAux sep s.data [] with
  | [ds, ms, ys] =>
    (yearTok ys).bind fun y => (monthTok ms).bind fun m => (dayTok ds).bind fun d =>
      let dt : Date := ⟨y, m, d⟩
      if ymdOk dt then some dt else none
  | _ => none

/-- Format `%m<sep>%d<sep>%Y`. -/
def fmtMdySep (sep : Char) (s : String) : Option Date :=
  match splitSepAux sep s.data [] with
  | [ms, ds, ys] =>
    (yearTok ys).bind fun y => (monthTok ms).bind fun m => (dayTok ds).bind fun d =>
      let dt : Date := ⟨y, m, d⟩
      if ymdOk dt then some dt else none
  | _ => none

/-- The ordered explicit-format loop of `parse_numeric_yyyymmdd`:
`%Y%m%d`, `%Y-%m-%d`, `%Y/%m/%d`, `%Y.%m.%d`, `%d/%m/%Y`, `%m/%d/%Y`
(a format that matches but denotes an invalid date raises and the loop
continues, so it contributes no result). -/
def tryFormats (s : String) : Option Date :=
  (fmtCompact s).orElse fun _ =>
  (fmtYmdSep '-' s).orElse fun _ =>
  (fmtYmdSep '/' s).orElse fun _ =>
  (fmtYmdSep '.' s).orElse fun _ =>
  (fmtDmySep '/' s).orElse fun _ =>
  fmtMdySep '/' s

/-- Modelled from the spec: the final `pd.to_datetime(s, errors='coerce')`
fallback of `parse_numeric_yyyymmdd` is a call into the pandas library and is
not part of `src/`; the spec describes it as "a permissive generic date
parser; unparseable input yields null, never raises".  It is modelled as
recognizing the same explicit date shapes (in particular 8-digit `YYYYMMDD`
strings denoting valid dates in the representable timestamp range) and
yielding null on everything else. -/
def pdFallback (s : String) : Option Date := tryFormats s

def eightDigits (cs : List Char) : Bool := cs.length == 8 && cs.all isDigitChar

def decode8 (cs : List Char) : Date :=
  match cs with
  | [a, b, c, d, e, f, g, h] =>
    ⟨((charVal a * 10 + charVal b) * 10 + charVal c) * 10 + charVal d,
     charVal e * 10 + charVal f, charVal g * 10 + charVal h⟩
  | _ => ⟨0, 0, 0⟩

/-- `parse_numeric_yyyymmdd` from `src/dashboard.py`: a null cell stays null;
the stringified cell is stripped; a string of exactly 8 digits is tried as
`YYYYMMDD` (succeeding exactly on valid in-range dates); on failure the
explicit format list is tried in order and finally the generic pandas
fallback. -/
def parse_numeric_yyyymmdd (x : Option String) : Option Date :=
  match x with
  | none => none
  | some raw =>
    let s := stripStr raw
    if eightDigits s.data then
      let dt := decode8 s.data
      if ymdOk dt then some dt
      else (tryFormats s).orElse fun _ => pdFallback s
    else (tryFormats s).orElse fun _ => pdFallback s

/-! ### Work-duration range splitting -/

/-- One attempt of the delimiter regex `\s*[-–—]\s*|\s+to\s+|\s*/\s*` at the
head of `cs` (alternatives in order, `\s*`/`\s+` greedy); returns the
remainder after the match. -/
def matchDelim (cs : List Char) : Option (List Char) :=
  let afterWs := cs.dropWhile isPySpace
  match afterWs with
  | [] => none
  | c :: rest =>
    if c == '-' || c == '–' || c == '—' then some (rest.dropWhile isPySpace)
    else if c == '/' then some (rest.dropWhile isPySpace)
    else if c == 't' then
      match cs, rest with
      | c0 :: _, 'o' :: r2 =>
        if isPySpace c0 then
          match r2 with
          | c2 :: _ => if isPySpace c2 then some (r2.dropWhile isPySpace) else none
          | [] => none
        else none
      | _, _ => none
    else none

/-- Left-to-right scan of `re.split`: try the delimiter pattern at every
position, cutting at every occurrence.  The fuel argument only bounds the
recursion; `splitWD` supplies enough for the whole string. -/
def splitWDAux : Nat → List Char → List Char → List (List Char)
  | 0, cs, acc => [acc.reverse ++ cs]
  | _ + 1, [], acc => [acc.reverse]
  | fuel + 1, c :: rest, acc =>
    match matchDelim (c :: rest) with
    | some rem => acc.reverse :: splitWDAux fuel rem []
    | none => splitWDAux fuel rest (c :: acc)

/-- `re.split(r"\s*[-–—]\s*|\s+to\s+|\s*/\s*", s)`. -/
def splitWD (s : String) : List String :=
  (splitWDAux (s.data.length + 1) s.data []).map String.mk

/-- Per-cell body of `parse_work_duration_column`: a null cell gives two
nulls; otherwise strip, split on the delimiter regex, and feed the first one
or two fragments to `parse_numeric_yyyymmdd` (`window_end` is null when only
one fragment is found). -/
def parse_work_duration_cell (v : Option String) : Option Date × Option Date :=
  match v with
  | none => (none, none)
  | some raw =>
    match splitWD (stripStr raw) with
    | p0 :: p1 :: _ => (parse_numeric_yyyymmdd (some p0), parse_numeric_yyyymmdd (some p1))
    | [p0] => (parse_numeric_yyyymmdd (some p0), none)
    | [] => (none, none)

/-! ### Cells and numeric coercion -/

/-- A raw spreadsheet cell for the numeric columns: a number or a free-text
string (missing cells are `Option.none` at the use sites). -/
inductive Cell where
  | num (q : ℚ)
  | str (s : String)
deriving DecidableEq, Repr

def digitsVal (cs : List Char) : Nat := cs.foldl (fun acc c => acc * 10 + charVal c) 0

/-- Decimal string parsing, modelling `pd.to_numeric(..., errors='coerce')`
on text cells: optional sign, digits with an optional fractional part;
anything else coerces to null. -/
def parseDecimal (s : String) : Option ℚ :=
  let cs := stripChars s.data
  let sgn : ℚ := match cs with
    | '-' :: _ => -1
    | _ => 1
  let cs1 : List Char := match cs with
    | '-' :: rest => rest
    | '+' :: rest => rest
    | _ => cs
  let intPart := cs1.takeWhile isDigitChar
  let rest1 := cs1.dropWhile isDigitChar
  match rest1 with
  | [] => if intPart.isEmpty then none else some (sgn * (digitsVal intPart : ℚ))
  | '.' :: fracRest =>
    let fracPart := fracRest.takeWhile isDigitChar
    if (fracRest.dropWhile isDigitChar).isEmpty && !(intPart.isEmpty && fracPart.isEmpty) then
      some (sgn * ((digitsVal intPart : ℚ) + (digitsVal fracPart : ℚ) / (10 : ℚ) ^ fracPart.length))
    else none
  | _ => none

/-- `pd.to_numeric(..., errors='coerce')` on one cell. -/
def toNumeric (c : Option Cell) : Option ℚ :=
  match c with
  | none => none
  | some (Cell.num q) => some q
  | some (Cell.str s) => parseDecimal s

/-! ### Column-level percentage scaling -/

/-- Maximum of the non-null entries of a column (`max(skipna=True)`). -/
def maxNN (col : List (Option ℚ)) : Option ℚ :=
  (col.filterMap id).foldl
    (fun acc q =>
      match acc with
      | none => some q
      | some a => some (if a < q then q else a))
    none

/-- Column-level decision of the `/100` rescaling: the column's maximum
non-null value exceeds 1.5 (written `mkRat 3 2`; on an all-null column the
source compares NaN, which is falsy, so no rescaling happens). -/
def scaleDecision (col : List (Option ℚ)) : Bool :=
  match maxNN col with
  | none => false
  | some mx => decide (mkRat 3 2 < mx)

/-- The per-column percentage normalization applied to `QS%`, `Revision/s`
and `Efficiency` by `clean_and_prepare`. -/
def scale_fraction (col : List (Option ℚ)) : List (Option ℚ) :=
  if scaleDecision col then col.map (Option.map fun q => q / 100) else col

/-! ### Raw and normalized tables -/

/-- One raw spreadsheet row.  Date-like cells are modelled by the Python
`str()` rendering that the source immediately applies to them (so the float
cell `20250703.0` is the string "20250703.0"); metric cells keep their raw
number-or-text shape for `pd.to_numeric`. -/
structure RawRow where
  name : Option String := none
  refNum : Option Cell := none
  dateCompleted : Option String := none
  workDuration : Option String := none
  targetHours : Option Cell := none
  actualHours : Option Cell := none
  efficiency : Option Cell := none
  qs : Option Cell := none
  revisions : Option Cell := none
deriving DecidableEq, Repr

/-- A raw table: column-presence flags (an absent optional column changes
downstream behavior) plus the rows.  Flags refer to the columns
`Name`, `Ref. number`, `Date Completed`, `Work Duration`,
`Target Work Hours`, `Actual Work Hours`, `Efficiency`, `QS%`,
`Revision/s`. -/
structure RawTable where
  hasName : Bool := true
  hasRef : Bool := false
  hasDC : Bool := true
  hasWD : Bool := true
  hasTarget : Bool := true
  hasActual : Bool := true
  hasEff : Bool := true
  hasQS : Bool := true
  hasRev : Bool := true
  rows : List RawRow := []
deriving DecidableEq, Repr

/-- One normalized row of the prepared dataframe (`windowEnd` is the
`end_date` column after the fillna with `Date Completed`). -/
structure NRec where
  name : Option String
  taskId : Option Cell
  dateCompleted : Option Date
  windowStart : Option Date
  windowEnd : Option Date
  month : Option Date
  onTime : Option Bool
  actualHours : Option ℚ
  qsFrac : Option ℚ
  revFrac : Option ℚ
  effFrac : Option ℚ
deriving DecidableEq, Repr

structure NTable where
  hasName : Bool
  hasRef : Bool
  hasDC : Bool
  hasWD : Bool
  hasTarget : Bool
  hasActual : Bool
  hasEff : Bool
  hasQS : Bool
  hasRev : Bool
  rows : List NRec
deriving DecidableEq, Repr

/-- `to_period('M').to_timestamp()`: the first-of-month date. -/
def firstOfMonth (d : Date) : Date := ⟨d.y, d.m, 1⟩

def qsColOf (t : RawTable) : List (Option ℚ) := t.rows.map fun r => toNumeric r.qs

def revColOf (t : RawTable) : List (Option ℚ) := t.rows.map fun r => toNumeric r.revisions

def effColOf (t : RawTable) : List (Option ℚ) := t.rows.map fun r => toNumeric r.efficiency

/-- Normalization of one row (the row-wise part of `clean_and_prepare`),
given the three column-level scaling decisions and the row index (used for
the synthesized task id when `Ref. number` is absent).

Mirrors the source: `Date Completed` is parsed by `parse_numeric_yyyymmdd`;
`Work Duration` is split into start/end; `end_date` is backfilled from
`Date Completed` when both columns exist; the month bucket comes from the
`end_date` column if `Work Duration` exists (the source's `start_date`
branch is unreachable because `start_date` and `end_date` are created
together), else from `Date Completed`; `OnTime` is the pandas comparison
`Date Completed <= end_date` (false when either side is `NaT`) whenever both
columns exist, and all-null otherwise. -/
def cleanRow (t : RawTable) (qsDiv revDiv effDiv : Bool) (i : Nat) (r : RawRow) : NRec :=
  let dc := if t.hasDC then parse_numeric_yyyymmdd r.dateCompleted else none
  let wd := if t.hasWD then parse_work_duration_cell r.workDuration else (none, none)
  let weF := if t.hasWD && t.hasDC then (wd.2).orElse fun _ => dc else wd.2
  let monthBase := if t.hasWD then weF else if t.hasDC then dc else none
  let onT : Option Bool :=
    if t.hasDC && t.hasWD then
      some (match dc, weF with
            | some a, some b => decide (a.code ≤ b.code)
            | _, _ => false)
    else none
  { name := if t.hasName then r.name else none
    taskId := if t.hasRef then r.refNum else some (Cell.num (i : ℚ))
    dateCompleted := dc
    windowStart := wd.1
    windowEnd := weF
    month := monthBase.map firstOfMonth
    onTime := onT
    actualHours := if t.hasActual then some ((toNumeric r.actualHours).getD 0) else none
    qsFrac := if t.hasQS then (toNumeric r.qs).map (fun q => if qsDiv then q / 100 else q) else none
    revFrac := if t.hasRev then (toNumeric r.revisions).map (fun q => if revDiv then q / 100 else q) else none
    effFrac := if t.hasEff then (toNumeric r.efficiency).map (fun q => if effDiv then q / 100 else q) else none }

def cleanRows (t : RawTable) (qsDiv revDiv effDiv : Bool) : Nat → List RawRow → List NRec
  | _, [] => []
  | i, r :: rest =>
    cleanRow t qsDiv revDiv effDiv i r :: cleanRows t qsDiv revDiv effDiv (i + 1) rest

/-- `clean_and_prepare` from `src/dashboard.py` (the scaling decisions are
computed once per column, then every row is normalized). -/
def clean_and_prepare (t : RawTable) : NTable :=
  { hasName := t.hasName, hasRef := t.hasRef, hasDC := t.hasDC, hasWD := t.hasWD
    hasTarget := t.hasTarget, hasActual := t.hasActual, hasEff := t.hasEff
    hasQS := t.hasQS, hasRev := t.hasRev
    rows := cleanRows t (scaleDecision (qsColOf t)) (scaleDecision (revColOf t))
      (scaleDecision (effColOf t)) 0 t.rows }

/-! ### Aggregation (`group_ind`, `group_team`) -/

/-- One row of the per-member-month aggregate table. -/
structure IndRow where
  month : Date
  name : String
  qsMean : Option ℚ
  revMean : Option ℚ
  onTimePct : Option ℚ
  effMean : Option ℚ
  manhours : ℚ
  tasks : Nat
deriving DecidableEq, Repr

/-- One row of the per-team-month aggregate table. -/
structure TeamRow where
  month : Date
  qsMean : Option ℚ
  revMean : Option ℚ
  onTimePct : Option ℚ
  effMean : Option ℚ
  manhours : ℚ
  tasks : Nat
deriving DecidableEq, Repr

/-- The grouping key of a row for `groupby(['month', 'Name'])`; pandas drops
rows whose key contains a null. -/
def keyOf (r : NRec) : Option (Date × String) :=
  match r.month, r.name with
  | some m, some n => some (m, n)
  | _, _ => none

def charListLe : List Char → List Char → Bool
  | [], _ => true
  | _ :: _, [] => false
  | a :: as, b :: bs =>
    if a.toNat < b.toNat then true
    else if b.toNat < a.toNat then false
    else charListLe as bs

/-- Lexicographic string order used when pandas sorts group keys. -/
def strLe (a b : String) : Bool := charListLe a.data b.data

def keyLeB (a b : Date × String) : Bool :=
  if a.1.code < b.1.code then true
  else if b.1.code < a.1.code then false
  else strLe a.2 b.2

def keyRel (a b : Date × String) : Prop := keyLeB a b = true

instance : DecidableRel keyRel := fun a b => inferInstanceAs (Decidable (keyLeB a b = true))

def monthRel (a b : Date) : Prop := a.code ≤ b.code

instance : DecidableRel monthRel := fun a b => inferInstanceAs (Decidable (a.code ≤ b.code))

/-- The distinct non-null `(month, Name)` keys, in the sorted order pandas
produces (`groupby(..., sort=True)` followed by `sort_values('month')`). -/
def indKeys (rs : List NRec) : List (Date × String) :=
  List.insertionSort keyRel (rs.filterMap keyOf).dedup

/-- The distinct non-null month keys for the team grouping, sorted. -/
def teamKeys (rs : List NRec) : List Date :=
  List.insertionSort monthRel (rs.filterMap fun r => r.month).dedup

/-- `mean` with `skipna`: null on an all-null column, never an error. -/
def meanOpt (xs : List (Option ℚ)) : Option ℚ :=
  let vs := xs.filterMap id
  if vs.isEmpty then none else some (vs.sum / (vs.length : ℚ))

def boolFrac (b : Bool) : ℚ := if b then 1 else 0

def indGroup (rs : List NRec) (m : Date) (n : String) : List NRec :=
  rs.filter fun r => r.month == some m && r.name == some n

def mkIndRow (rs : List NRec) (k : Date × String) : IndRow :=
  let g := indGroup rs k.1 k.2
  { month := k.1, name := k.2
    qsMean := meanOpt (g.map fun r => r.qsFrac)
    revMean := meanOpt (g.map fun r => r.revFrac)
    onTimePct := meanOpt (g.map fun r => r.onTime.map boolFrac)
    effMean := meanOpt (g.map fun r => r.effFrac)
    manhours := (g.map fun r => r.actualHours.getD 0).sum
    tasks := (g.filter fun r => r.taskId.isSome).length }

def teamGroup (rs : List NRec) (m : Date) : List NRec :=
  rs.filter fun r => r.month == some m

def mkTeamRow (rs : List NRec) (m : Date) : TeamRow :=
  let g := teamGroup rs m
  { month := m
    qsMean := meanOpt (g.map fun r => r.qsFrac)
    revMean := meanOpt (g.map fun r => r.revFrac)
    onTimePct := meanOpt (g.map fun r => r.onTime.map boolFrac)
    effMean := meanOpt (g.map fun r => r.effFrac)
    manhours := (g.map fun r => r.actualHours.getD 0).sum
    tasks := (g.filter fun r => r.taskId.isSome).length }

/-- The rows of `group_ind = filtered.groupby(['month', 'Name'], ...)`:
the six summary statistics per distinct non-null `(month, Name)` key. -/
def group_ind_rows (rs : List NRec) : List IndRow :=
  (indKeys rs).map (mkIndRow rs)

/-- The rows of `group_team = filtered.groupby(['month'], ...)`. -/
def group_team_rows (rs : List NRec) : List TeamRow :=
  (teamKeys rs).map (mkTeamRow rs)

/-- `group_ind`: the aggregation raises a `KeyError` when a referenced
column is missing — `Name` (the grouping key), `QS%`/`Revision/s`/
`Efficiency` (the agg fallback references the raw column when the `_frac`
column was never created) or `Actual Work Hours`. -/
def group_ind (t : NTable) : Except String (List IndRow) :=
  if t.hasName = false then Except.error "KeyError: Name"
  else if t.hasQS = false then Except.error "KeyError: QS%"
  else if t.hasRev = false then Except.error "KeyError: Revision/s"
  else if t.hasEff = false then Except.error "KeyError: Efficiency"
  else if t.hasActual = false then Except.error "KeyError: Actual Work Hours"
  else Except.ok (group_ind_rows t.rows)

/-- `group_team`: same referenced columns except the `Name` grouping key. -/
def group_team (t : NTable) : Except String (List TeamRow) :=
  if t.hasQS = false then Except.error "KeyError: QS%"
  else if t.hasRev = false then Except.error "KeyError: Revision/s"
  else if t.hasEff = false then Except.error "KeyError: Efficiency"
  else if t.hasActual = false then Except.error "KeyError: Actual Work Hours"
  else Except.ok (group_team_rows t.rows)

def isOkE {α : Type} (e : Except String α) : Bool :=
  match e with
  | Except.ok _ => true
  | Except.error _ => false

/-! ### Leaderboards (`lb_cols`) -/

/-- Sort order of `sort_values(by=metric, ascending=False)` with the default
`na_position='last'`: descending by value, nulls last. -/
def lbLe (a b : String × Option ℚ) : Bool :=
  match a.2, b.2 with
  | none, none => true
  | none, some _ => false
  | some _, none => true
  | some u, some v => decide (v ≤ u)

def lbRel (a b : String × Option ℚ) : Prop := lbLe a b = true

instance : DecidableRel lbRel := fun a b => inferInstanceAs (Decidable (lbLe a b = true))

instance : IsTotal (String × Option ℚ) lbRel where
  total a b := by
    rcases a with ⟨na, va⟩; rcases b with ⟨nb, vb⟩
    cases va <;> cases vb <;> simp [lbRel, lbLe] <;> exact le_total _ _

instance : IsTrans (String × Option ℚ) lbRel where
  trans a b c hab hbc := by
    rcases a with ⟨na, va⟩; rcases b with ⟨nb, vb⟩; rcases c with ⟨nc, vc⟩
    cases va <;> cases vb <;> cases vc <;>
      simp_all [lbRel, lbLe] <;> exact le_trans hbc hab

/-- `group_ind['month'].max()` (as a `YYYYMMDD` code), null on an empty
table. -/
def latestCode (rows : List IndRow) : Option Nat :=
  (rows.map fun r => r.month.code).foldl
    (fun acc c =>
      match acc with
      | none => some c
      | some a => some (max a c))
    none

/-- One `lb_cols` leaderboard: restrict the per-member-month table to its
latest month and sort the (member, value) pairs descending with nulls last.
The source's `sort_values` uses an unstable but deterministic quicksort; tie
order is unspecified, and it is modelled here with a (deterministic, stable)
insertion sort over the same order relation. -/
def leaderboard (rows : List IndRow) (metric : IndRow → Option ℚ) :
    List (String × Option ℚ) :=
  match latestCode rows with
  | none => []
  | some c =>
    List.insertionSort lbRel
      ((rows.filter fun r => r.month.code == c).map fun r => (r.name, metric r))

/-! ### Concrete input tables used to settle individual claims -/

/-- Two rows with target/actual hours present (`50 ≠ 0` and `0`) and a
directly supplied `Efficiency` of `0.9`. -/
def tblEff : RawTable :=
  { rows := [
      { targetHours := some (Cell.num 40), actualHours := some (Cell.num 50),
        efficiency := some (Cell.num (mkRat 9 10)) },
      { targetHours := some (Cell.num 40), actualHours := some (Cell.num 0),
        efficiency := some (Cell.num (mkRat 9 10)) }] }

/-- As `tblEff` but with the target/actual cells perturbed. -/
def tblEffB : RawTable :=
  { rows := [
      { targetHours := none, actualHours := some (Cell.num 7),
        efficiency := some (Cell.num (mkRat 9 10)) },
      { targetHours := some (Cell.num 1), actualHours := none,
        efficiency := some (Cell.num (mkRat 9 10)) }] }

/-- A row whose `Date Completed` cell is empty while `Work Duration` parses
to a full window. -/
def tblNoDC : RawTable :=
  { rows := [{ workDuration := some "20250623-20250704" }] }

/-- A row whose `Work Duration` cell holds a single date token and whose
`Date Completed` cell is empty. -/
def tblStartOnly : RawTable :=
  { rows := [{ workDuration := some "20250623" }] }

/-- A row with a null `Name` cell but a resolvable month. -/
def tblNullName : RawTable :=
  { rows := [
      { name := none, workDuration := some "20250623-20250704",
        actualHours := some (Cell.num 5) }] }

/-- A table whose `Name` column is absent entirely. -/
def tblNoNameCol : RawTable :=
  { hasName := false, rows := [{ workDuration := some "20250623-20250704" }] }

/-- A row whose date and metric cells are malformed text. -/
def tblGarbage : RawTable :=
  { rows := [
      { name := some "a", dateCompleted := some "garbage",
        workDuration := some "not a range", qs := some (Cell.str "oops") },
      { name := some "b", dateCompleted := some "20250703" }] }

/-- A row with both a completed date and a full work-duration window. -/
def tblBoth : RawTable :=
  { rows := [{ dateCompleted := some "20250703", workDuration := some "20250623-20250704" }] }

/-- As `tblBoth` but with a member name. -/
def tblBothNamed : RawTable :=
  { rows := [{ name := some "a", dateCompleted := some "20250703",
               workDuration := some "20250623-20250704" }] }

/-- A one-row per-member-month table. -/
def indRowsW : List IndRow :=
  [{ month := ⟨2025, 7, 1⟩, name := "a", qsMean := none, revMean := none,
     onTimePct := none, effMean := some (mkRat 4 5), manhours := 50, tasks := 1 }]

/-! ## Helper lemmas -/

theorem isPySpace_eq_false_of_digit {c : Char} (h : isDigitChar c = true) :
    isPySpace c = false := by
  rcases hb : isPySpace c with _ | _
  · rfl
  · exfalso
    simp only [isPySpace, Bool.or_eq_true, beq_iff_eq] at hb
    rcases hb with ((((rfl | rfl) | rfl) | rfl) | rfl) | rfl <;> exact absurd h (by decide)

theorem dropWhile_eq_self_of_all {α : Type} {p : α → Bool} {l : List α}
    (h : ∀ c ∈ l, p c = false) : l.dropWhile p = l := by
  cases l with
  | nil => rfl
  | cons a as => simp [List.dropWhile_cons, h a (List.mem_cons_self a as)]

theorem stripChars_eq_self_of_digits {cs : List Char}
    (h : ∀ c ∈ cs, isDigitChar c = true) : stripChars cs = cs := by
  unfold stripChars
  have h1 : ∀ c ∈ cs, isPySpace c = false := fun c hc => isPySpace_eq_false_of_digit (h c hc)
  rw [dropWhile_eq_self_of_all h1, dropWhile_eq_self_of_all, List.reverse_reverse]
  intro c hc
  exact h1 c (List.mem_reverse.mp hc)

theorem stripStr_eq_self_of_digits {s : String}
    (h : ∀ c ∈ s.data, isDigitChar c = true) : stripStr s = s := by
  unfold stripStr
  rw [stripChars_eq_self_of_digits h]

theorem foldl_max_le {c : ℚ} :
    ∀ (l : List ℚ) (acc : Option ℚ), (∀ q ∈ l, q ≤ c) →
      (∀ a, acc = some a → a ≤ c) →
      ∀ m, l.foldl (fun acc q =>
          match acc with
          | none => some q
          | some a => some (if a < q then q else a)) acc = some m → m ≤ c := by
  intro l
  induction l with
  | nil => intro acc _ hacc m hm; exact hacc m hm
  | cons q l ih =>
    intro acc hl hacc m hm
    refine ih _ (fun x hx => hl x (List.mem_cons_of_mem _ hx)) ?_ m hm
    intro a ha
    cases acc with
    | none =>
      simp only [Option.some.injEq] at ha
      exact ha ▸ hl q (List.mem_cons_self q l)
    | some b =>
      simp only [Option.some.injEq] at ha
      subst ha
      by_cases hbq : b < q
      · simpa [hbq] using hl q (List.mem_cons_self q l)
      · simpa [hbq] using hacc b rfl

theorem maxNN_le {col : List (Option ℚ)} {c : ℚ}
    (h : ∀ q ∈ col.filterMap id, q ≤ c) :
    ∀ m, maxNN col = some m → m ≤ c := by
  intro m hm
  exact foldl_max_le (col.filterMap id) none h (by intro a ha; cases ha) m hm

theorem scaleDecision_eq_false {col : List (Option ℚ)}
    (h : ∀ q ∈ col.filterMap id, q ≤ mkRat 3 2) : scaleDecision col = false := by
  unfold scaleDecision
  cases hm : maxNN col with
  | none => rfl
  | some m =>
    simp only [decide_eq_false_iff_not, not_lt]
    exact maxNN_le h m hm

theorem cleanRows_map_field {α : Type} (t : RawTable) (qd rd ed : Bool)
    (f : NRec → α) (g : RawRow → α)
    (hf : ∀ i row, f (cleanRow t qd rd ed i row) = g row) :
    ∀ (i : Nat) (l : List RawRow), (cleanRows t qd rd ed i l).map f = l.map g := by
  intro i l
  induction l generalizing i with
  | nil => rfl
  | cons row rest ih => simp [cleanRows, hf i row, ih (i + 1)]

theorem clean_map_qsFrac (t : RawTable) (h : t.hasQS = true) :
    (clean_and_prepare t).rows.map (fun r => r.qsFrac) = scale_fraction (qsColOf t) := by
  unfold clean_and_prepare
  rw [cleanRows_map_field t _ _ _ _
    (fun row => (toNumeric row.qs).map fun v =>
      if scaleDecision (qsColOf t) then v / 100 else v)
    (fun i row => by simp [cleanRow, h])]
  unfold scale_fraction qsColOf
  cases hd : scaleDecision (t.rows.map fun r => toNumeric r.qs) <;>
    simp [hd, List.map_map, Function.comp, qsColOf]

theorem clean_map_revFrac (t : RawTable) (h : t.hasRev = true) :
    (clean_and_prepare t).rows.map (fun r => r.revFrac) = scale_fraction (revColOf t) := by
  unfold clean_and_prepare
  rw [cleanRows_map_field t _ _ _ _
    (fun row => (toNumeric row.revisions).map fun v =>
      if scaleDecision (revColOf t) then v / 100 else v)
    (fun i row => by simp [cleanRow, h])]
  unfold scale_fraction revColOf
  cases hd : scaleDecision (t.rows.map fun r => toNumeric r.revisions) <;>
    simp [hd, List.map_map, Function.comp, revColOf]

theorem clean_map_effFrac (t : RawTable) (h : t.hasEff = true) :
    (clean_and_prepare t).rows.map (fun r => r.effFrac) = scale_fraction (effColOf t) := by
  unfold clean_and_prepare
  rw [cleanRows_map_field t _ _ _ _
    (fun row => (toNumeric row.efficiency).map fun v =>
      if scaleDecision (effColOf t) then v / 100 else v)
    (fun i row => by simp [cleanRow, h])]
  unfold scale_fraction effColOf
  cases hd : scaleDecision (t.rows.map fun r => toNumeric r.efficiency) <;>
    simp [hd, List.map_map, Function.comp, effColOf]

theorem cleanRows_length (t : RawTable) (qd rd ed : Bool) :
    ∀ (i : Nat) (l : List RawRow), (cleanRows t qd rd ed i l).length = l.length := by
  intro i l
  induction l generalizing i with
  | nil => rfl
  | cons row rest ih => simp [cleanRows, ih (i + 1)]

theorem clean_length (t : RawTable) :
    (clean_and_prepare t).rows.length = t.rows.length :=
  cleanRows_length t _ _ _ 0 t.rows

theorem cleanRows_getElem (t : RawTable) (qd rd ed : Bool) :
    ∀ (i j : Nat) (l : List RawRow),
      (cleanRows t qd rd ed i l)[j]? = (l[j]?).map (cleanRow t qd rd ed (i + j)) := by
  intro i j l
  induction l generalizing i j with
  | nil => simp [cleanRows]
  | cons row rest ih =>
    cases j with
    | zero => simp [cleanRows]
    | succ j2 =>
      have h2 := ih (i + 1) j2
      have harith : i + 1 + j2 = i + (j2 + 1) := by omega
      rw [cleanRows]
      simp only [List.getElem?_cons_succ]
      rw [h2, harith]

theorem clean_getElem (t : RawTable) (j : Nat) :
    (clean_and_prepare t).rows[j]? =
      (t.rows[j]?).map (cleanRow t (scaleDecision (qsColOf t))
        (scaleDecision (revColOf t)) (scaleDecision (effColOf t)) j) := by
  unfold clean_and_prepare
  simpa using cleanRows_getElem t _ _ _ 0 j t.rows

theorem filterMap_filter_eq {α β : Type} (p : α → Bool) (f : α → Option β) (l : List α)
    (h : ∀ a, p a = false → f a = none) :
    (l.filter p).filterMap f = l.filterMap f := by
  induction l with
  | nil => rfl
  | cons a l ih =>
    cases hp : p a with
    | true => simp [List.filter_cons, hp, List.filterMap_cons, ih]
    | false => simp [List.filter_cons, hp, List.filterMap_cons, h a hp, ih]

theorem indGroup_filter_month (rs : List NRec) (m : Date) (n : String) :
    indGroup (rs.filter fun r => r.month.isSome) m n = indGroup rs m n := by
  unfold indGroup
  rw [List.filter_filter]
  apply List.filter_congr
  intro r _
  cases hm : r.month with
  | none => simp [hm]
  | some m2 => simp [hm]

theorem teamGroup_filter_month (rs : List NRec) (m : Date) :
    teamGroup (rs.filter fun r => r.month.isSome) m = teamGroup rs m := by
  unfold teamGroup
  rw [List.filter_filter]
  apply List.filter_congr
  intro r _
  cases hm : r.month with
  | none => simp [hm]
  | some m2 => simp [hm]

theorem indKeys_filter_month (rs : List NRec) :
    indKeys (rs.filter fun r => r.month.isSome) = indKeys rs := by
  unfold indKeys
  rw [filterMap_filter_eq]
  intro r hp
  cases hm : r.month with
  | none => simp [keyOf, hm]
  | some m2 => rw [hm] at hp; simp at hp

theorem teamKeys_filter_month (rs : List NRec) :
    teamKeys (rs.filter fun r => r.month.isSome) = teamKeys rs := by
  unfold teamKeys
  rw [filterMap_filter_eq]
  intro r hp
  cases hm : r.month with
  | none => simp [hm]
  | some m2 => rw [hm] at hp; simp at hp

/-! ## Claims -/

/-- C2 (code_bug): the source's own comment promises to parse
"2025/06/23 - 2025/07/04", but `/` is itself one of the split delimiters and
`re.split` cuts at every occurrence, so the two fragments handed to the date
parser are "2025" and "06" — not the two sides of the range — and the cell
does not produce the claimed window 2025-06-23 .. 2025-07-04. -/
theorem c2_split_cuts_inside_slash_dates :
    splitWD "2025/06/23 - 2025/07/04" = ["2025", "06", "23", "2025", "07", "04"] ∧
    parse_work_duration_cell (some "2025/06/23 - 2025/07/04") =
      (parse_numeric_yyyymmdd (some "2025"), parse_numeric_yyyymmdd (some "06")) ∧
    parse_work_duration_cell (some "2025/06/23 - 2025/07/04") ≠
      (some ⟨2025, 6, 23⟩, some ⟨2025, 7, 4⟩) := by
  decide

/-- C5 (counterexample): a cell whose string form is "20250703.0" (the float
`20250703.0`) is not matched by the 8-digit branch and parses to null, not to
2025-07-03; likewise the valid calendar date 1600-01-01 is outside the pandas
timestamp range and parses to null rather than round-tripping. -/
theorem c5_counterexample :
    parse_numeric_yyyymmdd (some "20250703.0") = none ∧
    parse_numeric_yyyymmdd (some "20250703.0") ≠ some ⟨2025, 7, 3⟩ ∧
    parse_numeric_yyyymmdd (some "16000101") = none ∧
    parse_numeric_yyyymmdd (some "16000101") ≠ some ⟨1600, 1, 1⟩ := by
  decide

/-- C5 (amended): a cell whose stripped string form is exactly 8 digits
encoding a valid calendar date inside the representable timestamp range
parses to exactly that date; an 8-digit string with an invalid month/day
("20250231") parses to null.  (Strings with a trailing ".0" are not accepted
by the 8-digit branch and fall through to the generic fallback, yielding
null, per `c5_counterexample`.) -/
theorem c5_eight_digit_dates :
    (∀ s : String, eightDigits s.data = true → ymdOk (decode8 s.data) = true →
      parse_numeric_yyyymmdd (some s) = some (decode8 s.data)) ∧
    parse_numeric_yyyymmdd (some "20250231") = none := by
  constructor
  · intro s h8 hok
    have hall : ∀ c ∈ s.data, isDigitChar c = true := by
      have h2 := (Bool.and_eq_true _ _).mp h8 |>.2
      simpa [List.all_eq_true] using h2
    have hs : stripStr s = s := stripStr_eq_self_of_digits hall
    simp only [parse_numeric_yyyymmdd, hs, h8, if_true, hok]
  · decide

/-- Witness for `c5_eight_digit_dates` at the concrete cell "20250703". -/
theorem c5_witness :
    eightDigits ("20250703" : String).data = true ∧
    ymdOk (decode8 ("20250703" : String).data) = true ∧
    parse_numeric_yyyymmdd (some "20250703") = some (decode8 ("20250703" : String).data) :=
  ⟨by decide, by decide, c5_eight_digit_dates.1 "20250703" (by decide) (by decide)⟩

/-- C1 (counterexample): with `Target Work Hours = 40`,
`Actual Work Hours = 50 ≠ 0` and a supplied `Efficiency = 0.9`, the
normalized efficiency fraction is `0.9`, not the ratio `40 / 50 = 0.8`; and
with `Actual Work Hours = 0` it is still `some 0.9`, not null.  The source
never derives efficiency from the hours columns. -/
theorem c1_counterexample :
    tblEff.rows.map (fun r => (r.targetHours, r.actualHours)) =
      [(some (Cell.num 40), some (Cell.num 50)),
       (some (Cell.num 40), some (Cell.num 0))] ∧
    (clean_and_prepare tblEff).rows.map (fun r => r.effFrac) =
      [some (mkRat 9 10), some (mkRat 9 10)] ∧
    ¬ (mkRat 9 10 = mkRat 40 50) := by
  decide

/-- C1 (amended): the efficiency fraction column is exactly the supplied
`Efficiency` column passed through the per-column `/100` heuristic
(`scale_fraction`); it depends only on the `Efficiency` cells — the
target/actual hours cells never override it and a zero `actual_hours` does
not null it. -/
theorem c1_efficiency_not_derived (t tB : RawTable)
    (h : t.hasEff = true) (hB : tB.hasEff = true)
    (hcol : effColOf t = effColOf tB) :
    (clean_and_prepare t).rows.map (fun r => r.effFrac) = scale_fraction (effColOf t) ∧
    (clean_and_prepare t).rows.map (fun r => r.effFrac) =
      (clean_and_prepare tB).rows.map (fun r => r.effFrac) := by
  refine ⟨clean_map_effFrac t h, ?_⟩
  rw [clean_map_effFrac t h, clean_map_effFrac tB hB, hcol]

/-- Witness for `c1_efficiency_not_derived`: perturbing the hours cells
leaves the efficiency column unchanged. -/
theorem c1_witness :
    (clean_and_prepare tblEff).rows.map (fun r => r.effFrac) =
      scale_fraction (effColOf tblEff) ∧
    (clean_and_prepare tblEff).rows.map (fun r => r.effFrac) =
      (clean_and_prepare tblEffB).rows.map (fun r => r.effFrac) :=
  c1_efficiency_not_derived tblEff tblEffB rfl rfl (by decide)

/-- C6 (confirmed): the `/100` interpretation is decided once per column by
the maximum non-null value: when the decision fires every entry (also those
individually ≤ 1.5) is divided by 100, otherwise the column is untouched;
on an already-scaled column (all values ≤ 1.5) the scaling is a no-op, so
applying it twice equals applying it once; and `clean_and_prepare` applies
exactly this per-column rule to `QS%`, `Revision/s` and `Efficiency`. -/
theorem c6_scale_fraction_columnwise :
    ∀ col : List (Option ℚ),
      (scaleDecision col = true →
        ∀ i : Nat, (scale_fraction col)[i]? = (col[i]?).map (Option.map fun q => q / 100)) ∧
      (scaleDecision col = false → scale_fraction col = col) ∧
      ((∀ q ∈ col.filterMap id, q ≤ mkRat 3 2) →
        scale_fraction (scale_fraction col) = col) ∧
      (∀ t : RawTable,
        (t.hasQS = true →
          (clean_and_prepare t).rows.map (fun r => r.qsFrac) = scale_fraction (qsColOf t)) ∧
        (t.hasRev = true →
          (clean_and_prepare t).rows.map (fun r => r.revFrac) = scale_fraction (revColOf t)) ∧
        (t.hasEff = true →
          (clean_and_prepare t).rows.map (fun r => r.effFrac) = scale_fraction (effColOf t))) ∧
      (mkRat 3 2 : ℚ) = 3 / 2 := by
  intro col
  refine ⟨?_, ?_, ?_, ?_, ?_⟩
  · intro hd i
    simp [scale_fraction, hd]
  · intro hd
    simp [scale_fraction, hd]
  · intro hle
    have hd : scaleDecision col = false := scaleDecision_eq_false hle
    simp [scale_fraction, hd]
  · intro t
    exact ⟨clean_map_qsFrac t, clean_map_revFrac t, clean_map_effFrac t⟩
  · rw [Rat.mkRat_eq_div]
    norm_num

/-- Witness for `c6_scale_fraction_columnwise` at concrete columns. -/
theorem c6_witness :
    (scale_fraction [some (50 : ℚ), some 1, none])[1]? =
      (([some (50 : ℚ), some 1, none] : List (Option ℚ))[1]?).map
        (Option.map fun q => q / 100) ∧
    scale_fraction (scale_fraction [some (mkRat 9 10), none]) =
      [some (mkRat 9 10), none] :=
  ⟨(c6_scale_fraction_columnwise _).1 (by decide) 1,
   (c6_scale_fraction_columnwise _).2.2.1 (by decide)⟩

/-- C3 (counterexample): a row whose `Date Completed` cell is empty but
whose window end parses gets `on_time = False` (the pandas `NaT ≤ t`
comparison), not null as the claim requires. -/
theorem c3_counterexample :
    (clean_and_prepare tblNoDC).rows.map (fun r => (r.dateCompleted, r.windowEnd, r.onTime)) =
      [(none, some ⟨2025, 7, 4⟩, some false)] := by
  decide

/-- C3 (amended): when both the `Date Completed` and `Work Duration` columns
are present, `on_time` is a boolean for every row, never a per-row null:
with both dates parsed it equals `completed ≤ window_end`; with a null
completed date the pandas `NaT` comparison yields `False`; with a null
parsed range end the backfilled end equals the completed date, yielding
`True`.  `on_time` is null only when one of the two columns is absent
entirely. -/
theorem c3_on_time_never_null_per_row (t : RawTable)
    (hdc : t.hasDC = true) (hwd : t.hasWD = true)
    (j : Nat) (r : RawRow) (hr : t.rows[j]? = some r) :
    ∃ nr : NRec, (clean_and_prepare t).rows[j]? = some nr ∧
      nr.onTime.isSome = true ∧
      (∀ a b, parse_numeric_yyyymmdd r.dateCompleted = some a →
        (parse_work_duration_cell r.workDuration).2 = some b →
        nr.onTime = some (decide (a.code ≤ b.code))) ∧
      (parse_numeric_yyyymmdd r.dateCompleted = none → nr.onTime = some false) ∧
      (∀ a, parse_numeric_yyyymmdd r.dateCompleted = some a →
        (parse_work_duration_cell r.workDuration).2 = none → nr.onTime = some true) := by
  refine ⟨_, by rw [clean_getElem t j, hr]; rfl, ?_, ?_, ?_, ?_⟩
  · simp [cleanRow, hdc, hwd]
  · intro a b ha hb
    simp [cleanRow, hdc, hwd, ha, hb, Option.orElse]
  · intro ha
    simp [cleanRow, hdc, hwd, ha, Option.orElse]
  · intro a ha hb
    simp [cleanRow, hdc, hwd, ha, hb, Option.orElse]

/-- Witness for `c3_on_time_never_null_per_row` on a concrete row with both
columns populated. -/
theorem c3_witness :
    ∃ nr : NRec, (clean_and_prepare tblBoth).rows[0]? = some nr ∧
      nr.onTime.isSome = true ∧
      (∀ a b, parse_numeric_yyyymmdd (some "20250703") = some a →
        (parse_work_duration_cell (some "20250623-20250704")).2 = some b →
        nr.onTime = some (decide (a.code ≤ b.code))) ∧
      (parse_numeric_yyyymmdd (some "20250703") = none → nr.onTime = some false) ∧
      (∀ a, parse_numeric_yyyymmdd (some "20250703") = some a →
        (parse_work_duration_cell (some "20250623-20250704")).2 = none →
        nr.onTime = some true) :=
  c3_on_time_never_null_per_row tblBoth rfl rfl 0
    { dateCompleted := some "20250703", workDuration := some "20250623-20250704" } rfl

/-- C4 (counterexample): a row whose `Work Duration` cell is the single
token "20250623" (so `window_start` parses but the end is null) and whose
`Date Completed` is empty gets a null `month_bucket` — the claimed fallback
to `window_start` (bucket 2025-06-01) never happens. -/
theorem c4_counterexample :
    (clean_and_prepare tblStartOnly).rows.map (fun r => (r.windowStart, r.month)) =
      [(some ⟨2025, 6, 23⟩, none)] := by
  decide

/-- C4 (amended): `month_bucket` is chosen at column level, not by a
per-record priority walk: when the `Work Duration` column exists the bucket
comes from the `end_date` column (the parsed range end backfilled with the
completed date), `window_start` is never consulted; without `Work Duration`
it comes from `Date Completed`; otherwise it is null. -/
theorem c4_month_from_end_then_completed (t : RawTable)
    (j : Nat) (r : RawRow) (hr : t.rows[j]? = some r) :
    ∃ nr : NRec, (clean_and_prepare t).rows[j]? = some nr ∧
      nr.windowStart = (if t.hasWD then (parse_work_duration_cell r.workDuration).1 else none) ∧
      nr.month =
        (if t.hasWD then
          (((parse_work_duration_cell r.workDuration).2.orElse fun _ =>
            if t.hasDC then parse_numeric_yyyymmdd r.dateCompleted else none).map firstOfMonth)
        else if t.hasDC then (parse_numeric_yyyymmdd r.dateCompleted).map firstOfMonth
        else none) := by
  refine ⟨_, by rw [clean_getElem t j, hr]; rfl, ?_, ?_⟩
  · cases hwd : t.hasWD <;> simp [cleanRow, hwd]
  · cases hwd : t.hasWD with
    | false => cases hdc : t.hasDC <;> simp [cleanRow, hwd, hdc]
    | true =>
      cases hdc : t.hasDC with
      | true => simp [cleanRow, hwd, hdc]
      | false =>
        cases hw2 : (parse_work_duration_cell r.workDuration).2 <;>
          simp [cleanRow, hwd, hdc, hw2, Option.orElse]

/-- Witness for `c4_month_from_end_then_completed` on the single-token
range row. -/
theorem c4_witness :
    ∃ nr : NRec, (clean_and_prepare tblStartOnly).rows[0]? = some nr ∧
      nr.windowStart =
        (if tblStartOnly.hasWD then (parse_work_duration_cell (some "20250623")).1 else none) ∧
      nr.month =
        (if tblStartOnly.hasWD then
          (((parse_work_duration_cell (some "20250623")).2.orElse fun _ =>
            if tblStartOnly.hasDC then parse_numeric_yyyymmdd none else none).map firstOfMonth)
        else if tblStartOnly.hasDC then (parse_numeric_yyyymmdd none).map firstOfMonth
        else none) :=
  c4_month_from_end_then_completed tblStartOnly 0 { workDuration := some "20250623" } rfl

/-- C7 (confirmed): records with a null `month_bucket` contribute to neither
aggregate table — both computations are unchanged if such records are
dropped beforehand (pandas `groupby` drops null keys) — while normalization
itself keeps every row (`clean_and_prepare` preserves the row count). -/
theorem c7_null_month_excluded_but_kept :
    (∀ rs : List NRec,
      group_ind_rows rs = group_ind_rows (rs.filter fun r => r.month.isSome) ∧
      group_team_rows rs = group_team_rows (rs.filter fun r => r.month.isSome)) ∧
    (∀ t : RawTable, (clean_and_prepare t).rows.length = t.rows.length) := by
  refine ⟨fun rs => ⟨?_, ?_⟩, clean_length⟩
  · unfold group_ind_rows
    rw [indKeys_filter_month]
    apply List.map_congr_left
    intro k _
    simp only [mkIndRow, indGroup_filter_month]
  · unfold group_team_rows
    rw [teamKeys_filter_month]
    apply List.map_congr_left
    intro m _
    simp only [mkTeamRow, teamGroup_filter_month]

theorem teamKeys_nodup (rs : List NRec) : (teamKeys rs).Nodup :=
  ((List.perm_insertionSort monthRel _).nodup_iff).mpr (List.nodup_dedup _)

theorem indKeys_nodup (rs : List NRec) : (indKeys rs).Nodup :=
  ((List.perm_insertionSort keyRel _).nodup_iff).mpr (List.nodup_dedup _)

theorem mem_teamKeys {rs : List NRec} {m : Date} :
    m ∈ teamKeys rs ↔ ∃ r ∈ rs, r.month = some m := by
  unfold teamKeys
  rw [List.mem_insertionSort, List.mem_dedup, List.mem_filterMap]

theorem mem_indKeys {rs : List NRec} {k : Date × String} :
    k ∈ indKeys rs ↔ ∃ r ∈ rs, keyOf r = some k := by
  unfold indKeys
  rw [List.mem_insertionSort, List.mem_dedup, List.mem_filterMap]

theorem filter_beq_of_nodup {α : Type} [DecidableEq α] {l : List α} (hl : l.Nodup) (m : α) :
    l.filter (fun a => a == m) = if m ∈ l then [m] else [] := by
  induction l with
  | nil => simp
  | cons a l ih =>
    rcases List.nodup_cons.mp hl with ⟨ha, hl2⟩
    by_cases hm : a = m
    · subst hm
      have : a ∉ l := ha
      simp [List.filter_cons, ih hl2, this]
    · have hba : (a == m) = false := by simp [hm]
      have hma : ¬ m = a := fun h => hm h.symm
      simp [List.filter_cons, hba, ih hl2, List.mem_cons, hma]

theorem length_filter_split {α : Type} (p q : α → Bool) (l : List α) :
    (l.filter p).length =
      (l.filter fun a => p a && q a).length + (l.filter fun a => p a && !q a).length := by
  induction l with
  | nil => rfl
  | cons a l ih =>
    cases hp : p a <;> cases hq : q a <;>
      simp [List.filter_cons, hp, hq, ih] <;> omega

theorem length_filter_or_disjoint {α : Type} (p q t : α → Bool) (l : List α)
    (hdisj : ∀ a ∈ l, p a = true → q a = true → False) :
    (l.filter fun a => (p a || q a) && t a).length =
      (l.filter fun a => p a && t a).length + (l.filter fun a => q a && t a).length := by
  induction l with
  | nil => rfl
  | cons a l ih =>
    have ih2 := ih fun x hx => hdisj x (List.mem_cons_of_mem _ hx)
    cases hp : p a with
    | true =>
      cases hq : q a with
      | true => exact (hdisj a (List.mem_cons_self a l) hp hq).elim
      | false => cases ht : t a <;> simp [List.filter_cons, hp, hq, ht, ih2] <;> omega
    | false => cases hq : q a <;> cases ht : t a <;>
        simp [List.filter_cons, hp, hq, ht, ih2] <;> omega

theorem keyOf_beq (r : NRec) (k : Date × String) :
    (r.month == some k.1 && r.name == some k.2) = (keyOf r == some k) := by
  rcases k with ⟨k1, k2⟩
  apply Bool.eq_iff_iff.mpr
  cases hm : r.month <;> cases hn : r.name <;>
    simp [keyOf, hm, hn]

/-- Summing per-key task counts over a duplicate-free key list counts each
record whose key occurs in the list exactly once. -/
theorem sum_key_counts (rs : List NRec) :
    ∀ ks : List (Date × String), ks.Nodup →
      (ks.map fun k => (rs.filter fun r =>
          (r.month == some k.1 && r.name == some k.2) && r.taskId.isSome).length).sum =
      (rs.filter fun r => (ks.any fun k => keyOf r == some k) && r.taskId.isSome).length := by
  intro ks
  induction ks with
  | nil => simp
  | cons k ks ih =>
    intro hnd
    rcases List.nodup_cons.mp hnd with ⟨hk, hnd2⟩
    rw [List.map_cons, List.sum_cons, ih hnd2]
    have hcond : ∀ r : NRec,
        ((k :: ks).any fun k2 => keyOf r == some k2) =
          ((keyOf r == some k) || (ks.any fun k2 => keyOf r == some k2)) := by
      intro r
      simp [List.any_cons]
    have hdisj : ∀ r ∈ rs, (keyOf r == some k) = true →
        (ks.any fun k2 => keyOf r == some k2) = true → False := by
      intro r _ h1 h2
      rw [beq_iff_eq] at h1
      rcases List.any_eq_true.mp h2 with ⟨k2, hk2, hbeq⟩
      rw [beq_iff_eq] at hbeq
      rw [h1] at hbeq
      cases hbeq
      exact hk hk2
    have hstep1 : (rs.filter fun r =>
          (r.month == some k.1 && r.name == some k.2) && r.taskId.isSome)
        = rs.filter fun r => (keyOf r == some k) && r.taskId.isSome := by
      apply List.filter_congr
      intro r _
      rw [keyOf_beq]
    have hstep3 : (rs.filter fun r =>
          ((keyOf r == some k) || (ks.any fun k2 => keyOf r == some k2)) && r.taskId.isSome)
        = rs.filter fun r =>
            ((k :: ks).any fun k2 => keyOf r == some k2) && r.taskId.isSome := by
      apply List.filter_congr
      intro r _
      rw [hcond r]
    rw [hstep1, ← hstep3, length_filter_or_disjoint _ _ _ rs hdisj]

theorem keyOf_eq_some {r : NRec} {k : Date × String} :
    keyOf r = some k ↔ r.month = some k.1 ∧ r.name = some k.2 := by
  rcases k with ⟨k1, k2⟩
  cases hm : r.month <;> cases hn : r.name <;>
    simp [keyOf, hm, hn, Prod.ext_iff]

/-- C8 (counterexample): a filtered record with a null `Name` cell but a
resolvable month is counted by the per-team-month aggregate (grouping by
month keeps it) yet belongs to no per-member-month row (grouping by month
and `Name` drops it), so the team task count 1 exceeds the member sum 0. -/
theorem c8_counterexample :
    ((group_team_rows (clean_and_prepare tblNullName).rows).map fun tr => tr.tasks) = [1] ∧
    group_ind_rows (clean_and_prepare tblNullName).rows = [] := by
  decide

/-- C8 (amended): per month, the team task count equals the sum of the
member task counts plus the number of records with a null member for that
month; in particular the two agree whenever every record carries a member
name. -/
theorem c8_team_count_vs_member_sum (rs : List NRec) (m : Date) :
    ((((group_team_rows rs).filter fun tr => tr.month == m).map fun tr => tr.tasks).sum =
      (((group_ind_rows rs).filter fun ir => ir.month == m).map fun ir => ir.tasks).sum +
      (rs.filter fun r =>
        (r.month == some m && r.name == none) && r.taskId.isSome).length) ∧
    ((∀ r ∈ rs, r.name.isSome = true) →
      (((group_team_rows rs).filter fun tr => tr.month == m).map fun tr => tr.tasks).sum =
        (((group_ind_rows rs).filter fun ir => ir.month == m).map fun ir => ir.tasks).sum) := by
  have hteamfilter : (group_team_rows rs).filter (fun tr => tr.month == m)
      = ((teamKeys rs).filter fun mo => mo == m).map (mkTeamRow rs) := by
    unfold group_team_rows
    rw [List.filter_map]
    exact congrArg (List.map (mkTeamRow rs)) (List.filter_congr fun mo _ => rfl)
  have hteamtasks : (mkTeamRow rs m).tasks =
      (rs.filter fun r => (r.month == some m) && r.taskId.isSome).length := by
    simp only [mkTeamRow, teamGroup]
    rw [List.filter_filter]
    exact congrArg List.length (List.filter_congr fun r _ => Bool.and_comm _ _)
  have hindfilter : (group_ind_rows rs).filter (fun ir => ir.month == m)
      = ((indKeys rs).filter fun k => k.1 == m).map (mkIndRow rs) := by
    unfold group_ind_rows
    rw [List.filter_map]
    exact congrArg (List.map (mkIndRow rs)) (List.filter_congr fun k _ => rfl)
  have hindtasks : ∀ k : Date × String, (mkIndRow rs k).tasks =
      (rs.filter fun r =>
        (r.month == some k.1 && r.name == some k.2) && r.taskId.isSome).length := by
    intro k
    simp only [mkIndRow, indGroup]
    rw [List.filter_filter]
    exact congrArg List.length (List.filter_congr fun r _ => Bool.and_comm _ _)
  have hkeysnd : ((indKeys rs).filter fun k => k.1 == m).Nodup := (indKeys_nodup rs).filter _
  have hindsum : (((group_ind_rows rs).filter fun ir => ir.month == m).map fun ir => ir.tasks).sum
      = (rs.filter fun r =>
          (((indKeys rs).filter fun k => k.1 == m).any fun k => keyOf r == some k) &&
            r.taskId.isSome).length := by
    rw [hindfilter, List.map_map]
    calc ((((indKeys rs).filter fun k => k.1 == m).map
            ((fun ir => ir.tasks) ∘ mkIndRow rs))).sum
        = ((((indKeys rs).filter fun k => k.1 == m).map fun k =>
            (rs.filter fun r =>
              (r.month == some k.1 && r.name == some k.2) && r.taskId.isSome).length)).sum := by
          exact congrArg List.sum (List.map_congr_left fun k _ => hindtasks k)
      _ = _ := sum_key_counts rs _ hkeysnd
  have hany : ∀ r ∈ rs,
      ((((indKeys rs).filter fun k => k.1 == m).any fun k => keyOf r == some k) &&
        r.taskId.isSome)
      = ((r.month == some m && r.name.isSome) && r.taskId.isSome) := by
    intro r hr
    congr 1
    apply Bool.eq_iff_iff.mpr
    simp only [List.any_eq_true, List.mem_filter, beq_iff_eq, Bool.and_eq_true,
      Option.isSome_iff_exists]
    constructor
    · rintro ⟨k, ⟨_, hk1⟩, hko⟩
      rcases keyOf_eq_some.mp hko with ⟨hm2, hn2⟩
      exact ⟨hk1 ▸ hm2, ⟨k.2, hn2⟩⟩
    · rintro ⟨hm2, n, hn2⟩
      refine ⟨(m, n), ⟨mem_indKeys.mpr ⟨r, hr, ?_⟩, rfl⟩, ?_⟩
      · exact keyOf_eq_some.mpr ⟨hm2, hn2⟩
      · exact keyOf_eq_some.mpr ⟨hm2, hn2⟩
  have hindsum2 : (((group_ind_rows rs).filter fun ir => ir.month == m).map
        fun ir => ir.tasks).sum
      = (rs.filter fun r =>
          (r.month == some m && r.name.isSome) && r.taskId.isSome).length := by
    rw [hindsum]
    exact congrArg List.length (List.filter_congr hany)
  have hsplit : (rs.filter fun r => (r.month == some m) && r.taskId.isSome).length
      = (rs.filter fun r =>
          (r.month == some m && r.name.isSome) && r.taskId.isSome).length
      + (rs.filter fun r =>
          (r.month == some m && r.name == none) && r.taskId.isSome).length := by
    rw [length_filter_split (fun r => (r.month == some m) && r.taskId.isSome)
      (fun r => r.name.isSome) rs]
    congr 1
    · apply congrArg List.length
      apply List.filter_congr
      intro r _
      cases hx : (r.month == some m) <;> cases hy : r.taskId.isSome <;>
        cases hz : r.name.isSome <;> simp [hx, hy, hz]
    · apply congrArg List.length
      apply List.filter_congr
      intro r _
      cases hn : r.name <;> cases hx : (r.month == some m) <;>
        cases hy : r.taskId.isSome <;> simp [hn, hx, hy]
  have hmain : (((group_team_rows rs).filter fun tr => tr.month == m).map
        fun tr => tr.tasks).sum =
      (((group_ind_rows rs).filter fun ir => ir.month == m).map fun ir => ir.tasks).sum +
      (rs.filter fun r =>
        (r.month == some m && r.name == none) && r.taskId.isSome).length := by
    rw [hteamfilter, filter_beq_of_nodup (teamKeys_nodup rs) m, hindsum2]
    by_cases hmem : m ∈ teamKeys rs
    · simp only [hmem, if_true, List.map_cons, List.map_nil, List.sum_cons, List.sum_nil,
        Nat.add_zero]
      rw [hteamtasks, hsplit]
    · have hnone : ∀ r ∈ rs, ¬ r.month = some m := by
        intro r hr hcontra
        exact hmem (mem_teamKeys.mpr ⟨r, hr, hcontra⟩)
      have h1 : (rs.filter fun r =>
          (r.month == some m && r.name.isSome) && r.taskId.isSome) = [] := by
        apply List.filter_eq_nil_iff.mpr
        intro r hr
        simp only [Bool.and_eq_true, beq_iff_eq]
        rintro ⟨⟨hm2, _⟩, _⟩
        exact hnone r hr hm2
      have h2 : (rs.filter fun r =>
          (r.month == some m && r.name == none) && r.taskId.isSome) = [] := by
        apply List.filter_eq_nil_iff.mpr
        intro r hr
        simp only [Bool.and_eq_true, beq_iff_eq]
        rintro ⟨⟨hm2, _⟩, _⟩
        exact hnone r hr hm2
      simp [hmem, h1, h2]
  refine ⟨hmain, fun hall => ?_⟩
  have hz : (rs.filter fun r =>
      (r.month == some m && r.name == none) && r.taskId.isSome) = [] := by
    apply List.filter_eq_nil_iff.mpr
    intro r hr
    simp only [Bool.and_eq_true, beq_iff_eq]
    rintro ⟨⟨_, hn2⟩, _⟩
    have hs := hall r hr
    rw [hn2] at hs
    simp at hs
  rw [hmain, hz]
  simp

/-- Witness for `c8_team_count_vs_member_sum` on a one-record list with a
member name present. -/
theorem c8_witness :
    (((group_team_rows (clean_and_prepare tblBothNamed).rows).filter
        fun tr => tr.month == ⟨2025, 7, 1⟩).map fun tr => tr.tasks).sum =
      (((group_ind_rows (clean_and_prepare tblBothNamed).rows).filter
        fun ir => ir.month == ⟨2025, 7, 1⟩).map fun ir => ir.tasks).sum :=
  (c8_team_count_vs_member_sum (clean_and_prepare tblBothNamed).rows ⟨2025, 7, 1⟩).2
    (by decide)

theorem foldlMax_isSome :
    ∀ (l : List Nat) (a : Nat),
      (l.foldl (fun acc c =>
        match acc with
        | none => some c
        | some x => some (max x c)) (some a)).isSome = true := by
  intro l
  induction l with
  | nil => intro a; rfl
  | cons c l ih => intro a; simpa using ih (max a c)

theorem latestCode_of_ne_nil {rows : List IndRow} (h : rows ≠ []) :
    ∃ c, latestCode rows = some c := by
  cases rows with
  | nil => exact absurd rfl h
  | cons r rest =>
    unfold latestCode
    simp only [List.map_cons, List.foldl_cons]
    exact Option.isSome_iff_exists.mp (foldlMax_isSome (rest.map fun r => r.month.code) r.month.code)

/-- C10 (confirmed): for a non-empty per-member-month table, each
leaderboard metric is the latest-month (member, value) pairs — `latestCode`
is `max(month)` — sorted by `lbRel`: descending by value with nulls last,
whatever the metric.  The output is a pure function of the input (the
source's `sort_values` quicksort is deterministic; ties are modelled by the
stable insertion sort order). -/
theorem c10_leaderboard_sorted_desc_nulls_last (rows : List IndRow)
    (metric : IndRow → Option ℚ) (hne : rows ≠ []) :
    List.Sorted lbRel (leaderboard rows metric) ∧
    ∃ c, latestCode rows = some c ∧
      (leaderboard rows metric).Perm
        ((rows.filter fun r => r.month.code == c).map fun r => (r.name, metric r)) := by
  obtain ⟨c, hc⟩ := latestCode_of_ne_nil hne
  refine ⟨?_, c, hc, ?_⟩
  · unfold leaderboard
    rw [hc]
    exact List.sorted_insertionSort lbRel _
  · unfold leaderboard
    rw [hc]
    exact List.perm_insertionSort lbRel _

/-- Witness for `c10_leaderboard_sorted_desc_nulls_last` on a concrete
one-row table with the efficiency metric. -/
theorem c10_witness :
    List.Sorted lbRel (leaderboard indRowsW (fun r => r.effMean)) ∧
    ∃ c, latestCode indRowsW = some c ∧
      (leaderboard indRowsW (fun r => r.effMean)).Perm
        ((indRowsW.filter fun r => r.month.code == c).map fun r => (r.name, r.effMean)) :=
  c10_leaderboard_sorted_desc_nulls_last indRowsW (fun r => r.effMean) (by decide)

/-- C9 (counterexample): with the optional `Name` column absent, the
normalized table is produced (one row) but the per-member aggregation
raises (`KeyError`) instead of degrading gracefully. -/
theorem c9_counterexample :
    isOkE (group_ind (clean_and_prepare tblNoNameCol)) = false ∧
    (clean_and_prepare tblNoNameCol).rows.length = 1 := by
  decide

/-- C9 (amended): normalization is total — every input table is normalized
with the same number of rows, malformed cells degrading to nulls — but the
aggregation step completes without raising only when the columns it
references (`Name`, `Actual Work Hours`, `QS%`, `Revision/s`, `Efficiency`)
are all present. -/
theorem c9_aggregation_needs_columns (t : RawTable)
    (hn : t.hasName = true) (ha : t.hasActual = true) (hq : t.hasQS = true)
    (hv : t.hasRev = true) (he : t.hasEff = true) :
    group_ind (clean_and_prepare t) =
      Except.ok (group_ind_rows (clean_and_prepare t).rows) ∧
    group_team (clean_and_prepare t) =
      Except.ok (group_team_rows (clean_and_prepare t).rows) ∧
    (clean_and_prepare t).rows.length = t.rows.length := by
  refine ⟨?_, ?_, clean_length t⟩ <;>
    simp [group_ind, group_team, clean_and_prepare, hn, ha, hq, hv, he]

/-- Witness for `c9_aggregation_needs_columns` on a table with malformed
date and metric cells: both aggregations succeed and both rows survive. -/
theorem c9_witness :
    group_ind (clean_and_prepare tblGarbage) =
      Except.ok (group_ind_rows (clean_and_prepare tblGarbage).rows) ∧
    group_team (clean_and_prepare tblGarbage) =
      Except.ok (group_team_rows (clean_and_prepare tblGarbage).rows) ∧
    (clean_and_prepare tblGarbage).rows.length = tblGarbage.rows.length :=
  c9_aggregation_needs_columns tblGarbage rfl rfl rfl rfl rfl

end KPI
